import Mathlib

/-!
Verification of the DM_AI engagement-state engine (src/main.py, src/db.py).

Shallow embedding conventions:
* Python floats (timestamps, chaos parameters) are modelled as rationals.
* SQLite tables are modelled as Lean lists of row structures; queries are
  list operations translated from the SQL text.
* Python strings are Lean strings; character-level operations (regex
  substitution, `str.lower`, `str.strip`, SQLite `LIKE`) are implemented as
  executable functions on `List Char`.  Python whitespace and lower-casing
  are modelled on the ASCII / Latin-1 range, which covers every character
  appearing in the repository and in the concrete inputs used below.
* The external LLM generator and `random.choice` are modelled as oracle
  parameters (optional strings for generation results, natural-number
  choice indices).
-/

/-! ## Python character helpers -/

/-- Whitespace class of Python `\s` and `str.strip`, restricted to the
ASCII range: space, tab, newline, carriage return, vertical tab, form feed. -/
def pyWs (c : Char) : Bool :=
  c = ' ' || c = '\t' || c = '\n' || c = '\r' || c = Char.ofNat 11 || c = Char.ofNat 12

/-- Lower-casing of Python `str.lower` restricted to ASCII and Latin-1:
`A`-`Z` map down by 32, and the Latin-1 uppercase range `À`-`Þ` (except the
multiplication sign `×`) maps down by 32. -/
def pyLower (c : Char) : Char :=
  if 'A' ≤ c && c ≤ 'Z' then Char.ofNat (c.toNat + 32)
  else if Char.ofNat 0xC0 ≤ c && c ≤ Char.ofNat 0xDE && c ≠ Char.ofNat 0xD7 then
    Char.ofNat (c.toNat + 32)
  else c

/-- Result of `re.sub(r"\s+", " ", s)`: every maximal run of whitespace is
replaced by a single space.  The boolean argument records whether the
previous character was whitespace (i.e. the run is already open). -/
def collapseWsAux : Bool → List Char → List Char
  | _, [] => []
  | prevWs, c :: cs =>
    if pyWs c then
      if prevWs then collapseWsAux true cs else ' ' :: collapseWsAux true cs
    else c :: collapseWsAux false cs

def collapseWs (cs : List Char) : List Char := collapseWsAux false cs

/-- Python `str.strip()` on a character list: drop leading and trailing
whitespace. -/
def pyStripL (cs : List Char) : List Char :=
  ((cs.dropWhile pyWs).reverse.dropWhile pyWs).reverse

/-- Python `s.lower().strip()` as used for recent-quest-hook keys
(main.py `quest_recently_used` / `remember_quest`). -/
def pyLowerStrip (s : String) : String := ⟨pyStripL (s.data.map pyLower)⟩

/-! ## Chaos meter (main.py `clamp`, `compute_chaos`, claim C5)

The configuration constants carry the documented defaults from main.py:
`CHAOS_BASE = 0.5`, `CHAOS_SLOPE = 0.015`, `CHAOS_MAX = 1.3`. -/

def CHAOS_BASE : ℚ := 0.5

def CHAOS_SLOPE : ℚ := 0.015

def CHAOS_MAX : ℚ := 1.3

/-- main.py line 167: `def clamp(x, a, b): return max(a, min(b, x))`. -/
def clamp (x a b : ℚ) : ℚ := max a (min b x)

/-- main.py lines 168-169: `compute_chaos(today_interactions)`. -/
def compute_chaos (today_interactions : ℕ) : ℚ :=
  clamp (CHAOS_BASE + CHAOS_SLOPE * today_interactions) 0.2 CHAOS_MAX

/-! ## Conversation thread (main.py `trim_thread`, `load_thread`) -/

/-- An exchange dict `{"user": ..., "bot": ...}` as stored in the thread. -/
structure Exchange where
  user : String
  bot : String
deriving DecidableEq, Repr

def THREAD_MAX : ℕ := 3

/-- main.py lines 194-195: keep only the last `THREAD_MAX` exchanges
(Python `exchanges[-THREAD_MAX:]` when the list is longer). -/
def trim_thread (exchanges : List Exchange) : List Exchange :=
  if exchanges.length > THREAD_MAX then
    exchanges.drop (exchanges.length - THREAD_MAX)
  else exchanges

/-- JSON values, the codomain of `json.loads`. -/
inductive J where
  | null : J
  | jb : Bool → J
  | jn : ℚ → J
  | js : String → J
  | jarr : List J → J
  | jobj : List (String × J) → J

/-- Key membership test `"k" in d` for a parsed JSON object. -/
def hasKey (k : String) (kvs : List (String × J)) : Bool :=
  kvs.any (fun p => p.1 == k)

/-- Python `isinstance(d, dict) and "user" in d and "bot" in d`
(main.py line 189). -/
def wellFormedEx (d : J) : Bool :=
  match d with
  | J.jobj kvs => hasKey "user" kvs && hasKey "bot" kvs
  | _ => false

/-- main.py lines 183-192.  The call to `json.loads` is abstracted by the
argument: `none` models a falsy stored value (absent row or empty string),
`some (Except.error ())` models `json.loads` raising, and
`some (Except.ok v)` models a successful parse yielding `v`. -/
def load_thread (raw : Option (Except Unit J)) : List J :=
  match raw with
  | none => []
  | some (Except.error _) => []
  | some (Except.ok (J.jarr l)) => l.filter wellFormedEx
  | some (Except.ok _) => []

/-! ## Daily counters (db.py `day_snapshot`) -/

/-- One row of the `daily_counters` table (db.py lines 39-48). -/
structure DayRow where
  day : String
  interactions : ℤ
  advice_count : ℤ
  quest_count : ℤ
  roll_count : ℤ
  unique_users : ℤ
  upvotes : ℤ
  downvotes : ℤ
deriving DecidableEq, Repr

/-- db.py lines 176-182: `day_snapshot` returns the Python dict
`dict(zip(keys, row))` for the matching row, and the empty dict `{}` when
no row exists.  Python dicts with string keys are modelled as association
lists. -/
def day_snapshot (tbl : List DayRow) (day : String) : List (String × ℤ) :=
  match tbl.find? (fun r => r.day == day) with
  | none => []
  | some r =>
    [("interactions", r.interactions), ("advice_count", r.advice_count),
     ("quest_count", r.quest_count), ("roll_count", r.roll_count),
     ("unique_users", r.unique_users), ("upvotes", r.upvotes),
     ("downvotes", r.downvotes)]

/-! ## Theorems for claims C5, C6, C8, C9 -/

/-- C5: for every non-negative interaction count, `compute_chaos count`
equals `clamp (base + slope * count) 0.2 ceiling`; with the defaults it is
monotonically non-decreasing, always lies in `[0.2, CHAOS_MAX]`, and
`compute_chaos 0 = 0.5` while `compute_chaos 1000` clamps to `1.3`. -/
theorem C5_compute_chaos :
    (∀ n : ℕ, compute_chaos n = clamp (CHAOS_BASE + CHAOS_SLOPE * n) 0.2 CHAOS_MAX)
    ∧ (∀ n m : ℕ, n ≤ m → compute_chaos n ≤ compute_chaos m)
    ∧ (∀ n : ℕ, 0.2 ≤ compute_chaos n ∧ compute_chaos n ≤ CHAOS_MAX)
    ∧ compute_chaos 0 = 0.5 ∧ compute_chaos 1000 = 1.3 := by
  refine ⟨fun n => rfl, ?_, ?_, ?_, ?_⟩
  · intro n m hnm
    unfold compute_chaos clamp
    have hc : (n : ℚ) ≤ (m : ℚ) := by exact_mod_cast hnm
    have hs : (0 : ℚ) ≤ CHAOS_SLOPE := by norm_num [CHAOS_SLOPE]
    gcongr
  · intro n
    unfold compute_chaos clamp
    constructor
    · exact le_max_left _ _
    · have h1 : min CHAOS_MAX (CHAOS_BASE + CHAOS_SLOPE * n) ≤ CHAOS_MAX :=
        min_le_left _ _
      have h2 : (0.2 : ℚ) ≤ CHAOS_MAX := by norm_num [CHAOS_MAX]
      exact max_le h2 h1
  · unfold compute_chaos clamp CHAOS_BASE CHAOS_SLOPE CHAOS_MAX
    norm_num
  · unfold compute_chaos clamp CHAOS_BASE CHAOS_SLOPE CHAOS_MAX
    norm_num

/-- Witness for C5 at concrete counts. -/
theorem C5_compute_chaos_witness :
    compute_chaos 3 = clamp (CHAOS_BASE + CHAOS_SLOPE * 3) 0.2 CHAOS_MAX
    ∧ compute_chaos 2 ≤ compute_chaos 7
    ∧ (0.2 ≤ compute_chaos 11 ∧ compute_chaos 11 ≤ CHAOS_MAX)
    ∧ compute_chaos 0 = 0.5 ∧ compute_chaos 1000 = 1.3 := by
  refine ⟨?_, ?_, ?_, C5_compute_chaos.2.2.2.1, C5_compute_chaos.2.2.2.2⟩
  · have h := C5_compute_chaos.1 3
    simpa using h
  · exact C5_compute_chaos.2.1 2 7 (by decide)
  · exact C5_compute_chaos.2.2.1 11

/-- C6: the stored conversation thread never exceeds `THREAD_MAX = 3`
exchanges, and trimming a four-exchange list keeps exactly the second,
third and fourth exchanges in their original order. -/
theorem C6_trim_thread :
    (∀ l : List Exchange, (trim_thread l).length ≤ THREAD_MAX)
    ∧ (∀ e1 e2 e3 e4 : Exchange, trim_thread [e1, e2, e3, e4] = [e2, e3, e4]) := by
  constructor
  · intro l
    unfold trim_thread
    split
    · simp only [List.length_drop]
      omega
    · omega
  · intro e1 e2 e3 e4
    rfl

/-- C8: a stored thread value that is absent, fails JSON parsing, parses
to a non-list, or contains malformed entries is handled by `load_thread`
without error: the failure cases yield the empty list and malformed list
entries are silently dropped. -/
theorem C8_load_thread :
    load_thread none = []
    ∧ (∀ e : Unit, load_thread (some (Except.error e)) = [])
    ∧ (∀ v : J, (∀ l, v ≠ J.jarr l) → load_thread (some (Except.ok v)) = [])
    ∧ (∀ l : List J, load_thread (some (Except.ok (J.jarr l))) = l.filter wellFormedEx)
    ∧ (∀ l : List J, ∀ d ∈ load_thread (some (Except.ok (J.jarr l))),
        wellFormedEx d = true) := by
  refine ⟨rfl, fun e => rfl, ?_, fun l => rfl, ?_⟩
  · intro v hv
    cases v with
    | null => rfl
    | jb b => rfl
    | jn q => rfl
    | js s => rfl
    | jarr l => exact absurd rfl (hv l)
    | jobj kvs => rfl
  · intro l d hd
    simp only [load_thread, List.mem_filter] at hd
    exact hd.2

/-- Witness for C8 at concrete stored values. -/
theorem C8_load_thread_witness :
    load_thread (some (Except.ok J.null)) = []
    ∧ load_thread (some (Except.ok (J.jarr [J.null]))) = [] := by
  constructor
  · exact C8_load_thread.2.2.1 J.null (fun l h => J.noConfusion h)
  · exact C8_load_thread.2.2.2.1 [J.null]

/-- Counterexample to C9: for a day with no `daily_counters` row,
`day_snapshot` returns the empty dict, so the key `"interactions"` is
absent rather than present with value `0` as the claim requires. -/
theorem C9_counterexample :
    day_snapshot [] "2025-06-01" = []
    ∧ List.lookup "interactions" (day_snapshot [] "2025-06-01") = none := by
  exact ⟨rfl, rfl⟩

/-- C9 amended: for a day with no `daily_counters` row, `day_snapshot`
returns the empty record `{}` rather than failing; every counter read from
it with a default of `0` (as all callers do) yields `0`. -/
theorem C9_day_snapshot_amended (tbl : List DayRow) (day : String)
    (h : tbl.find? (fun r => r.day == day) = none) :
    day_snapshot tbl day = []
    ∧ ∀ k : String, (List.lookup k (day_snapshot tbl day)).getD 0 = 0 := by
  constructor
  · unfold day_snapshot
    rw [h]
  · intro k
    unfold day_snapshot
    rw [h]
    rfl

/-- Witness for the amended C9 on the empty table. -/
theorem C9_day_snapshot_amended_witness :
    day_snapshot [] "2025-06-01" = []
    ∧ (List.lookup "interactions" (day_snapshot [] "2025-06-01")).getD 0 = 0 := by
  exact ⟨(C9_day_snapshot_amended [] "2025-06-01" rfl).1,
    (C9_day_snapshot_amended [] "2025-06-01" rfl).2 "interactions"⟩

/-! ## Rate limiter (main.py `check_rate_limit`, claim C1)

Timestamps (`time.time()` floats) are modelled as rationals.  The per-user
bucket `RATE_BUCKETS[user_id]` is the list argument; the function returns
the admission decision together with the bucket after the call. -/

def RATE_LIMIT_WINDOW : ℚ := 30

def RATE_LIMIT_MAX : ℕ := 5

/-- Eviction step of main.py line 137:
`bucket[:] = [t for t in bucket if t >= cutoff]` with `cutoff = now - W`. -/
def rlEvict (W now : ℚ) (bucket : List ℚ) : List ℚ :=
  bucket.filter (fun t => decide (now - W ≤ t))

/-- main.py lines 134-141: evict old timestamps, reject when `M` remain,
otherwise append `now` and admit. -/
def check_rate_limit (W : ℚ) (M : ℕ) (bucket : List ℚ) (now : ℚ) : Bool × List ℚ :=
  let b := rlEvict W now bucket
  if M ≤ b.length then (false, b) else (true, b ++ [now])

/-- A sequence of calls to `check_rate_limit` for one user, threading the
bucket; returns the (decision, timestamp) pair of every call. -/
def rlRun (W : ℚ) (M : ℕ) : List ℚ → List ℚ → List (Bool × ℚ)
  | _, [] => []
  | bucket, now :: rest =>
    let r := check_rate_limit W M bucket now
    (r.1, now) :: rlRun W M r.2 rest

/-- Membership of a timestamp in the sliding window `[a, a + W]`. -/
def inWindow (a W t : ℚ) : Bool := decide (a ≤ t) && decide (t ≤ a + W)

theorem rlRun_filter_nil (W : ℚ) (M : ℕ) (a : ℚ) :
    ∀ (calls bucket : List ℚ), (∀ t ∈ calls, inWindow a W t = false) →
      (rlRun W M bucket calls).filter (fun p => p.1 && inWindow a W p.2) = [] := by
  intro calls
  induction calls with
  | nil => intro bucket _; rfl
  | cons now rest ih =>
    intro bucket h
    have hnow : inWindow a W now = false := h now (List.mem_cons_self _ _)
    have hrest : ∀ t ∈ rest, inWindow a W t = false :=
      fun t ht => h t (List.mem_cons_of_mem _ ht)
    simp only [rlRun, List.filter, hnow, Bool.and_false]
    exact ih _ hrest

theorem rlEvict_filter_window (W a now : ℚ) (h : now ≤ a + W) (b : List ℚ) :
    (rlEvict W now b).filter (inWindow a W) = b.filter (inWindow a W) := by
  induction b with
  | nil => rfl
  | cons t b ih =>
    by_cases hw : inWindow a W t = true
    · have hat : a ≤ t := by
        have := hw
        unfold inWindow at this
        simp only [Bool.and_eq_true, decide_eq_true_eq] at this
        exact this.1
      have hkeep : decide (now - W ≤ t) = true := by
        simp only [decide_eq_true_eq]
        linarith
      simp only [rlEvict, List.filter, hkeep, hw] at *
      rw [ih]
    · have hw' : inWindow a W t = false := by
        simpa using hw
      by_cases hk : decide (now - W ≤ t) = true
      · simp only [rlEvict, List.filter, hk, hw'] at *
        exact ih
      · have hk' : decide (now - W ≤ t) = false := by
          simpa using hk
        simp only [rlEvict, List.filter, hk', hw'] at *
        exact ih

theorem rlRun_window_bound (W : ℚ) (M : ℕ) (a : ℚ) :
    ∀ (calls bucket : List ℚ), calls.Pairwise (· ≤ ·) → bucket.length ≤ M →
      ((rlRun W M bucket calls).filter (fun p => p.1 && inWindow a W p.2)).length
        + (bucket.filter (inWindow a W)).length ≤ M := by
  intro calls
  induction calls with
  | nil =>
    intro bucket _ hb
    simp only [rlRun, List.filter, List.length_nil, Nat.zero_add]
    calc (bucket.filter (inWindow a W)).length ≤ bucket.length :=
          List.length_filter_le _ _
      _ ≤ M := hb
  | cons now rest ih =>
    intro bucket hpw hb
    have hrest : rest.Pairwise (· ≤ ·) := (List.pairwise_cons.mp hpw).2
    have hle : ∀ t ∈ rest, now ≤ t := (List.pairwise_cons.mp hpw).1
    have hevlen : (rlEvict W now bucket).length ≤ bucket.length :=
      List.length_filter_le _ _
    by_cases hwin : now ≤ a + W
    · -- no element of the window is evicted at this step
      have hfe : (rlEvict W now bucket).filter (inWindow a W)
          = bucket.filter (inWindow a W) := rlEvict_filter_window W a now hwin bucket
      by_cases hM : M ≤ (rlEvict W now bucket).length
      · -- rejected call
        have hstep : check_rate_limit W M bucket now = (false, rlEvict W now bucket) := by
          unfold check_rate_limit
          simp [hM]
        simp only [rlRun, hstep, List.filter, Bool.false_and]
        have := ih (rlEvict W now bucket) hrest (le_trans hevlen hb)
        rw [hfe] at this
        exact this
      · -- admitted call
        have hlt : (rlEvict W now bucket).length < M := Nat.lt_of_not_le hM
        have hstep : check_rate_limit W M bucket now
            = (true, rlEvict W now bucket ++ [now]) := by
          unfold check_rate_limit
          simp [hM]
        have hlen : (rlEvict W now bucket ++ [now]).length ≤ M := by
          simp only [List.length_append, List.length_singleton]
          omega
        have hih := ih (rlEvict W now bucket ++ [now]) hrest hlen
        rw [List.filter_append, List.length_append, hfe] at hih
        by_cases hnw : inWindow a W now = true
        · simp only [rlRun, hstep, List.filter, Bool.true_and, hnw]
          simp only [List.filter, hnw, List.length_singleton] at hih
          simp only [List.length_cons]
          omega
        · have hnw' : inWindow a W now = false := by simpa using hnw
          simp only [rlRun, hstep, List.filter, Bool.true_and, hnw']
          simp only [List.filter, hnw', List.length_nil] at hih
          omega
    · -- the window lies entirely before this and all later calls
      have hoff : ∀ t ∈ now :: rest, inWindow a W t = false := by
        intro t ht
        have htge : now ≤ t := by
          rcases List.mem_cons.mp ht with h | h
          · exact h ▸ le_rfl
          · exact hle t h
        unfold inWindow
        simp only [Bool.and_eq_false_iff, decide_eq_false_iff_not]
        right
        intro hta
        exact hwin (le_trans htge hta)
      have := rlRun_filter_nil W M a (now :: rest) bucket hoff
      rw [this]
      simp only [List.length_nil, Nat.zero_add]
      calc (bucket.filter (inWindow a W)).length ≤ bucket.length :=
            List.length_filter_le _ _
        _ ≤ M := hb

/-- C1: for one user and non-decreasing call timestamps, (i) at most
`RATE_LIMIT_MAX` calls inside any sliding window `[a, a + RATE_LIMIT_WINDOW]`
are admitted; (ii) a call that finds `RATE_LIMIT_MAX` timestamps surviving
eviction is rejected and its own timestamp is not appended; (iii) a call is
admitted again as soon as some bucket timestamp (in particular the oldest)
has aged past the window. -/
theorem C1_rate_limiter :
    (∀ (calls : List ℚ) (a : ℚ), calls.Pairwise (· ≤ ·) →
      ((rlRun RATE_LIMIT_WINDOW RATE_LIMIT_MAX [] calls).filter
        (fun p => p.1 && inWindow a RATE_LIMIT_WINDOW p.2)).length ≤ RATE_LIMIT_MAX)
    ∧ (∀ (bucket : List ℚ) (now : ℚ),
        RATE_LIMIT_MAX ≤ (rlEvict RATE_LIMIT_WINDOW now bucket).length →
        check_rate_limit RATE_LIMIT_WINDOW RATE_LIMIT_MAX bucket now
          = (false, rlEvict RATE_LIMIT_WINDOW now bucket))
    ∧ (∀ (bucket : List ℚ) (now o : ℚ), bucket.length ≤ RATE_LIMIT_MAX →
        o ∈ bucket → o < now - RATE_LIMIT_WINDOW →
        (check_rate_limit RATE_LIMIT_WINDOW RATE_LIMIT_MAX bucket now).1 = true) := by
  refine ⟨?_, ?_, ?_⟩
  · intro calls a hpw
    have h := rlRun_window_bound RATE_LIMIT_WINDOW RATE_LIMIT_MAX a calls [] hpw
      (by simp)
    simpa using h
  · intro bucket now hM
    unfold check_rate_limit
    simp [hM]
  · intro bucket now o hb ho hoW
    have hdrop : (rlEvict RATE_LIMIT_WINDOW now bucket).length < bucket.length := by
      apply List.length_filter_lt_length_iff_exists.mpr
      exact ⟨o, ho, by simp only [decide_eq_true_eq]; linarith⟩
    have hlt : (rlEvict RATE_LIMIT_WINDOW now bucket).length < RATE_LIMIT_MAX :=
      Nat.lt_of_lt_of_le hdrop hb
    unfold check_rate_limit
    simp [Nat.not_le.mpr hlt]

/-- Witness for C1: six admission attempts ten seconds apart, a full
bucket rejecting, and a full bucket admitting after the oldest entry aged
out. -/
theorem C1_rate_limiter_witness :
    ((rlRun RATE_LIMIT_WINDOW RATE_LIMIT_MAX [] [0, 10, 20, 30, 40, 50]).filter
        (fun p => p.1 && inWindow 0 RATE_LIMIT_WINDOW p.2)).length ≤ RATE_LIMIT_MAX
    ∧ check_rate_limit RATE_LIMIT_WINDOW RATE_LIMIT_MAX [0, 1, 2, 3, 4] 5
        = (false, rlEvict RATE_LIMIT_WINDOW 5 [0, 1, 2, 3, 4])
    ∧ (check_rate_limit RATE_LIMIT_WINDOW RATE_LIMIT_MAX [0, 1, 2, 3, 4] 40).1 = true := by
  have hsub : (5 : ℚ) - RATE_LIMIT_WINDOW = -25 := by
    norm_num [RATE_LIMIT_WINDOW]
  have hev : rlEvict RATE_LIMIT_WINDOW 5 [0, 1, 2, 3, 4] = [0, 1, 2, 3, 4] := by
    simp only [rlEvict, hsub]
    decide
  refine ⟨C1_rate_limiter.1 [0, 10, 20, 30, 40, 50] 0 ?_,
    C1_rate_limiter.2.1 [0, 1, 2, 3, 4] 5 ?_,
    C1_rate_limiter.2.2 [0, 1, 2, 3, 4] 40 0 ?_ ?_ ?_⟩
  · decide
  · rw [hev]
    decide
  · decide
  · decide
  · norm_num [RATE_LIMIT_WINDOW]

/-! ## Memory curator (db.py `memories` table) -/

/-- One row of the `memories` table (db.py lines 24-31). -/
structure Mem where
  mid : ℕ
  user_id : ℕ
  ts : ℤ
  snippet : String
  importance : ℤ
deriving DecidableEq, Repr

/-- Row ordering of `ORDER BY importance DESC, ts DESC`
(db.py lines 101-110): `a` may precede `b`. -/
def memLe (a b : Mem) : Bool :=
  decide (b.importance < a.importance)
    || (a.importance == b.importance && decide (b.ts ≤ a.ts))

theorem memLe_trans (a b c : Mem) (hab : memLe a b = true) (hbc : memLe b c = true) :
    memLe a c = true := by
  simp only [memLe, Bool.or_eq_true, Bool.and_eq_true, decide_eq_true_eq,
    beq_iff_eq] at *
  omega

theorem memLe_total (a b : Mem) : (memLe a b || memLe b a) = true := by
  simp only [memLe, Bool.or_eq_true, Bool.and_eq_true, decide_eq_true_eq,
    beq_iff_eq]
  omega

/-- db.py lines 101-110: `SELECT snippet FROM memories WHERE user_id = ?
ORDER BY importance DESC, ts DESC LIMIT ?`.  The sort is realised as a
stable merge sort under `memLe`. -/
def get_top_memories (tbl : List Mem) (uid : ℕ) (limit : ℕ) : List String :=
  (((tbl.filter (fun m => m.user_id == uid)).mergeSort memLe).take limit).map
    (fun m => m.snippet)

/-- Modelled from the spec: `db.prune_memories` is invoked from main.py
(lines 387, 565, 632) but is not defined in src/db.py.  Spec section 4.3:
`prune(user_id, keep)` retains only the `keep` highest-ranked snippets
(same ordering as `top_memories`) and discards the rest; other users'
rows are untouched. -/
def prune_memories (tbl : List Mem) (uid : ℕ) (keep : ℕ) : List Mem :=
  tbl.filter (fun m => !(m.user_id == uid))
    ++ ((tbl.filter (fun m => m.user_id == uid)).mergeSort memLe).take keep

/-- C3: after `prune_memories user 5`, `get_top_memories user 100` returns
at most 5 snippets, and they are exactly the (up to) 5 highest-ranked ones
among all of that user's rows, ordered by importance descending with ties
broken by timestamp descending. -/
theorem C3_prune_top_memories (tbl : List Mem) (uid : ℕ) :
    (get_top_memories (prune_memories tbl uid 5) uid 100).length ≤ 5
    ∧ get_top_memories (prune_memories tbl uid 5) uid 100
      = (((tbl.filter (fun m => m.user_id == uid)).mergeSort memLe).take 5).map
          (fun m => m.snippet) := by
  have hfilter : (prune_memories tbl uid 5).filter (fun m => m.user_id == uid)
      = ((tbl.filter (fun m => m.user_id == uid)).mergeSort memLe).take 5 := by
    unfold prune_memories
    rw [List.filter_append]
    have h1 : (tbl.filter (fun m => !(m.user_id == uid))).filter
        (fun m => m.user_id == uid) = [] := by
      apply List.filter_eq_nil_iff.mpr
      intro a ha
      have := (List.mem_filter.mp ha).2
      simp only [Bool.not_eq_true'] at this
      simp [this]
    have h2 : (((tbl.filter (fun m => m.user_id == uid)).mergeSort memLe).take 5).filter
        (fun m => m.user_id == uid)
        = ((tbl.filter (fun m => m.user_id == uid)).mergeSort memLe).take 5 := by
      apply List.filter_eq_self.mpr
      intro a ha
      have hmem : a ∈ (tbl.filter (fun m => m.user_id == uid)).mergeSort memLe :=
        (List.take_sublist _ _).subset ha
      have hmem2 : a ∈ tbl.filter (fun m => m.user_id == uid) :=
        (List.mergeSort_perm _ memLe).subset hmem
      exact (List.mem_filter.mp hmem2).2
    rw [h1, h2, List.nil_append]
  have hsorted : ((tbl.filter (fun m => m.user_id == uid)).mergeSort memLe).Pairwise
      (fun a b => memLe a b = true) :=
    List.sorted_mergeSort memLe_trans memLe_total _
  have hkept : (((tbl.filter (fun m => m.user_id == uid)).mergeSort memLe).take 5).Pairwise
      (fun a b => memLe a b = true) :=
    List.Pairwise.sublist (List.take_sublist _ _) hsorted
  have hresort : (((tbl.filter (fun m => m.user_id == uid)).mergeSort memLe).take 5).mergeSort
      memLe = ((tbl.filter (fun m => m.user_id == uid)).mergeSort memLe).take 5 :=
    List.mergeSort_of_sorted hkept
  have hlen : (((tbl.filter (fun m => m.user_id == uid)).mergeSort memLe).take 5).length ≤ 5 :=
    List.length_take_le _ _
  have htake : (((tbl.filter (fun m => m.user_id == uid)).mergeSort memLe).take 5).take 100
      = ((tbl.filter (fun m => m.user_id == uid)).mergeSort memLe).take 5 :=
    List.take_of_length_le (le_trans hlen (by omega))
  constructor
  · unfold get_top_memories
    rw [hfilter, hresort, htake, List.length_map]
    exact hlen
  · unfold get_top_memories
    rw [hfilter, hresort, htake]

/-! ## Memory deletion by LIKE pattern (db.py `delete_memories_with_prefix`) -/

/-- Case folding of SQLite `LIKE`, which by default is case-insensitive
for ASCII letters only. -/
def sqlLower (c : Char) : Char :=
  if 'A' ≤ c && c ≤ 'Z' then Char.ofNat (c.toNat + 32) else c

/-- SQLite `LIKE` matching: `%` matches any character sequence, `_` any
single character, other characters match ASCII-case-insensitively.  The
fuel argument strictly exceeds `pattern.length + s.length` at every
reachable call, making the function structurally recursive. -/
def likeMatchF : ℕ → List Char → List Char → Bool
  | 0, _, _ => false
  | _ + 1, [], s => s.isEmpty
  | f + 1, p :: ps, s =>
    if p = '%' then
      likeMatchF f ps s ||
        (match s with
         | [] => false
         | _ :: s2 => likeMatchF f (p :: ps) s2)
    else
      match s with
      | [] => false
      | c :: s2 =>
        if p = '_' then likeMatchF f ps s2
        else (sqlLower p == sqlLower c) && likeMatchF f ps s2

def likeMatch (pat s : List Char) : Bool :=
  likeMatchF (pat.length + s.length + 1) pat s

/-- db.py lines 93-99: `DELETE FROM memories WHERE user_id = ? AND snippet
LIKE ?` with the bound pattern `f"{prefix}%"`. -/
def delete_memories_with_prefix (tbl : List Mem) (uid : ℕ) (pre : String) : List Mem :=
  tbl.filter (fun m => !(m.user_id == uid && likeMatch (pre.data ++ ['%']) m.snippet.data))

theorem likeMatchF_pct (s : List Char) : ∀ f : ℕ, s.length + 2 ≤ f →
    likeMatchF f ['%'] s = true := by
  induction s with
  | nil =>
    intro f hf
    match f, hf with
    | f + 2, _ => rfl
  | cons c s2 ih =>
    intro f hf
    match f, hf with
    | f + 1, hf =>
      have : likeMatchF f ['%'] s2 = true := by
        apply ih
        simp only [List.length_cons] at hf
        omega
      simp [likeMatchF, this]

theorem likeMatch_wildfree (p : List Char) : ∀ (s : List Char) (f : ℕ),
    (∀ c ∈ p, c ≠ '%' ∧ c ≠ '_') → p.length + s.length + 2 ≤ f →
    likeMatchF f (p ++ ['%']) s = List.isPrefixOf (p.map sqlLower) (s.map sqlLower) := by
  induction p with
  | nil =>
    intro s f _ hf
    rw [List.nil_append]
    rw [likeMatchF_pct s f (by simpa using hf)]
    rw [List.map_nil]
    cases List.map sqlLower s <;> rfl
  | cons a p' ih =>
    intro s f hwild hf
    have ha : a ≠ '%' ∧ a ≠ '_' := hwild a (List.mem_cons_self _ _)
    have hwild' : ∀ c ∈ p', c ≠ '%' ∧ c ≠ '_' :=
      fun c hc => hwild c (List.mem_cons_of_mem _ hc)
    match f, hf with
    | f + 1, hf =>
      cases s with
      | nil =>
        simp only [List.cons_append, likeMatchF, ha.1, if_false]
        rfl
      | cons c s2 =>
        have hfs : p'.length + s2.length + 2 ≤ f := by
          simp only [List.length_cons] at hf
          omega
        simp only [List.cons_append, likeMatchF, ha.1, ha.2, if_false, List.map_cons,
          List.append_eq]
        rw [ih s2 f hwild' hfs]
        rfl

/-- Counterexample to C4: with the prefix `"Active quest:"`, the snippet
`"ACTIVE QUEST: slay the wyrm"` does not start with the prefix as a
literal case-sensitive string, yet `delete_memories_with_prefix` removes
it (SQLite `LIKE` is ASCII-case-insensitive). -/
theorem C4_counterexample :
    delete_memories_with_prefix [⟨1, 1, 0, "ACTIVE QUEST: slay the wyrm", 3⟩] 1
        "Active quest:" = []
    ∧ List.isPrefixOf "Active quest:".data "ACTIVE QUEST: slay the wyrm".data = false := by
  constructor
  · decide
  · decide

/-- C4 amended: for every wildcard-free prefix,
`delete_memories_with_prefix` removes exactly those of that user's
snippets whose text starts with the prefix compared
ASCII-case-insensitively, and leaves every other row (non-matching
snippets and other users' rows) unchanged, in order. -/
theorem C4_delete_amended (tbl : List Mem) (uid : ℕ) (pre : String)
    (h : ∀ c ∈ pre.data, c ≠ '%' ∧ c ≠ '_') :
    delete_memories_with_prefix tbl uid pre
      = tbl.filter (fun m => !(m.user_id == uid
          && List.isPrefixOf (pre.data.map sqlLower) (m.snippet.data.map sqlLower))) := by
  unfold delete_memories_with_prefix
  apply List.filter_congr
  intro m _
  have : likeMatch (pre.data ++ ['%']) m.snippet.data
      = List.isPrefixOf (pre.data.map sqlLower) (m.snippet.data.map sqlLower) := by
    unfold likeMatch
    apply likeMatch_wildfree
    · exact h
    · simp only [List.length_append, List.length_singleton]
      omega
  rw [this]

/-- Witness for the amended C4: one matching row is removed, a
non-matching row and another user's row survive. -/
theorem C4_delete_amended_witness :
    delete_memories_with_prefix
        [⟨1, 1, 0, "active QUEST: a", 3⟩, ⟨2, 1, 0, "note: b", 1⟩,
         ⟨3, 2, 0, "Active quest: c", 3⟩] 1 "Active quest:"
      = List.filter (fun m => !(m.user_id == 1
          && List.isPrefixOf ("Active quest:".data.map sqlLower)
              (m.snippet.data.map sqlLower)))
          [⟨1, 1, 0, "active QUEST: a", 3⟩, ⟨2, 1, 0, "note: b", 1⟩,
           ⟨3, 2, 0, "Active quest: c", 3⟩] := by
  exact C4_delete_amended _ 1 "Active quest:" (by decide)

/-! ## Per-user thread persistence (claim C10) -/

/-- One row of the `user_state` table (db.py lines 50-56):
`PRIMARY KEY (user_id, key)`. -/
structure URow where
  user_id : ℕ
  key : String
  value : String
  ts : ℤ
deriving DecidableEq, Repr

/-- Modelled from the spec: `db.set_thread` is invoked from main.py
(lines 581, 649) but is not defined in src/db.py.  Spec section 6: the
`user_state(user_id, key, value, ts, PK(user_id, key))` table holds a
`thread` key per user; the upsert overwrites the previous value
wholesale. -/
def set_thread (st : List URow) (uid : ℕ) (ts : ℤ) (v : String) : List URow :=
  ⟨uid, "thread", v, ts⟩ :: st.filter (fun r => !(r.user_id == uid && r.key == "thread"))

/-- Modelled from the spec: `db.get_thread` is invoked from main.py
(line 597) but is not defined in src/db.py.  It reads the `thread` value
of the `user_state` row for the user, if any. -/
def get_thread (st : List URow) (uid : ℕ) : Option String :=
  (st.find? (fun r => r.user_id == uid && r.key == "thread")).map (fun r => r.value)

/-- main.py line 580: the thread persisted by `handle_advice` is built
from the single new exchange only. -/
def advice_thread (question reply : String) : List Exchange :=
  trim_thread [⟨question, reply⟩]

/-- main.py lines 648-649: `cmd_continue` appends the new exchange to the
loaded thread and trims before persisting. -/
def continue_thread (thread : List Exchange) (txt reply : String) : List Exchange :=
  trim_thread (thread ++ [⟨txt, reply⟩])

/-- C10: after a successful advice request the stored thread is exactly
the one-element list holding the new exchange — whatever was stored
before is discarded — while the continue path appends the new exchange to
the existing thread (keeping the prior exchanges when the thread is below
the cap) before trimming. -/
theorem C10_thread_replacement :
    (∀ question reply : String, advice_thread question reply = [⟨question, reply⟩])
    ∧ (∀ (st : List URow) (uid : ℕ) (ts : ℤ) (question reply : String)
        (enc : List Exchange → String),
        get_thread (set_thread st uid ts (enc (advice_thread question reply))) uid
          = some (enc [⟨question, reply⟩]))
    ∧ (∀ (thread : List Exchange) (txt reply : String), thread.length < THREAD_MAX →
        continue_thread thread txt reply = thread ++ [⟨txt, reply⟩]) := by
  refine ⟨fun question reply => rfl, ?_, ?_⟩
  · intro st uid ts question reply enc
    simp only [get_thread, set_thread, List.find?, beq_self_eq_true, Bool.and_self,
      Option.map_some]
    rfl
  · intro thread txt reply hlen
    unfold continue_thread trim_thread
    have h2 : ¬((thread ++ [(⟨txt, reply⟩ : Exchange)]).length > THREAD_MAX) := by
      simp only [List.length_append, List.length_singleton]
      omega
    rw [if_neg h2]

/-- Witness for C10 with a concrete prior state and exchanges. -/
theorem C10_thread_replacement_witness :
    advice_thread "q" "r" = [⟨"q", "r"⟩]
    ∧ get_thread
        (set_thread [⟨7, "thread", "old", 0⟩] 7 1
          (String.intercalate "|" ((advice_thread "q" "r").map (fun e => e.user)))) 7
        = some (String.intercalate "|" (([⟨"q", "r"⟩] : List Exchange).map (fun e => e.user)))
    ∧ continue_thread [⟨"a", "b"⟩] "c" "d" = [⟨"a", "b"⟩, ⟨"c", "d"⟩] := by
  refine ⟨C10_thread_replacement.1 "q" "r", ?_, ?_⟩
  · exact C10_thread_replacement.2.1 [⟨7, "thread", "old", 0⟩] 7 1 "q" "r"
      (fun l => String.intercalate "|" (l.map (fun e => e.user)))
  · exact C10_thread_replacement.2.2 [⟨"a", "b"⟩] "c" "d" (by decide)

/-! ## Achievement-box sanitizer (main.py `ACHIEVEMENT_BOX_RE`, `clean_quest_hook`)

The compiled pattern (main.py lines 103-105) literally begins with the
four characters U+F8FF, U+00FC, U+00E8, U+00DC (the trophy emoji as it
appears, byte for byte, in the source file), followed by `\s*`, the text
`ACHIEVEMENT UNLOCKED:`, a lazy gap, `Reward:` and the rest of that line.
Matching is case-insensitive (`re.IGNORECASE`). -/

def boxHead : List Char :=
  [Char.ofNat 0xF8FF, Char.ofNat 0xFC, Char.ofNat 0xE8, Char.ofNat 0xDC]

/-- Case-insensitive literal matching; on success returns the remaining
input. -/
def matchLitCi : List Char → List Char → Option (List Char)
  | [], cs => some cs
  | _ :: _, [] => none
  | a :: la, c :: lc => if pyLower a = pyLower c then matchLitCi la lc else none

/-- Lazy gap `[\s\S]*?` followed by the literal `Reward:`: find the
earliest occurrence and return the input after it. -/
def findReward : List Char → Option (List Char)
  | [] => none
  | c :: cs =>
    match matchLitCi "Reward:".data (c :: cs) with
    | some rest => some rest
    | none => findReward cs

/-- Greedy `[^\n]*` followed by `(?:\n|$)`: drop the rest of the line,
consuming the newline when present. -/
def dropLine : List Char → List Char
  | [] => []
  | c :: cs => if c = '\n' then cs else dropLine cs

/-- Attempt to match `ACHIEVEMENT_BOX_RE` at the head of the input; on
success return the input after the match. -/
def matchBox (cs : List Char) : Option (List Char) :=
  match matchLitCi boxHead cs with
  | none => none
  | some r1 =>
    match matchLitCi "ACHIEVEMENT UNLOCKED:".data (r1.dropWhile pyWs) with
    | none => none
    | some r2 => (findReward r2).map dropLine

/-- The scan of `re.sub(pattern, " ", raw)`: at each position try the
pattern; on a match emit a single space and continue after the match.
A successful match always consumes at least the four `boxHead`
characters, so fuel equal to the input length suffices for the scan to
complete. -/
def subBoxesF : ℕ → List Char → List Char
  | 0, cs => cs
  | _ + 1, [] => []
  | f + 1, c :: cs =>
    match matchBox (c :: cs) with
    | some rest => ' ' :: subBoxesF f rest
    | none => c :: subBoxesF f cs

def subBoxes (cs : List Char) : List Char := subBoxesF cs.length cs

/-- Whether `ACHIEVEMENT_BOX_RE` matches anywhere in the input
(`re.search`). -/
def hasBox : List Char → Bool
  | [] => false
  | c :: cs => (matchBox (c :: cs)).isSome || hasBox cs

/-- main.py lines 255-259: strip achievement boxes, collapse whitespace
runs to single spaces, strip leading/trailing whitespace. -/
def clean_quest_hook (raw : String) : String :=
  ⟨pyStripL (collapseWs (subBoxes raw.data))⟩

/-! ## Quest hook selection (main.py `cmd_quest`, claims C2 and C7) -/

/-- main.py lines 97-101 (strings carried over byte for byte, including
the mojibake dash sequence in the second entry). -/
def QUEST_FALLBACKS : List String :=
  ["A suspicious merchant offers a map to a sunken archive guarded by silent bells.",
   "Each dawn, footprints circle every door‚Äîyet no watcher sees the walker.",
   "A cursed ledger predicts debts that come due in blood by the next full moon."]

/-- main.py lines 171-173: membership of the lower-cased, stripped hook
key in the recent-hook window. -/
def quest_recently_used (recent : List String) (hook : String) : Bool :=
  recent.contains (pyLowerStrip hook)

/-- main.py lines 175-181: push the hook key, evicting the oldest entry
once the window exceeds 20. -/
def remember_quest (recent : List String) (hook : String) : List String :=
  let key := pyLowerStrip hook
  if key = "" then recent
  else
    let r := recent ++ [key]
    if r.length > 20 then r.drop 1 else r

/-- Oracle inputs of one `cmd_quest` execution: the results of up to
three `generate_quest_hook` calls (`none` models a raised exception) and
the indices drawn by the two `random.choice` calls. -/
structure QuestEnv where
  g0 : Option String
  g1 : Option String
  g2 : Option String
  c0 : ℕ
  c1 : ℕ

/-- main.py lines 378-380: choose from the fallbacks not in the window
when any exist, otherwise from all fallbacks. -/
def fallbackPick (recent : List String) (c : ℕ) : String :=
  let opts := QUEST_FALLBACKS.filter (fun q => !(quest_recently_used recent q))
  let pool := if opts.isEmpty then QUEST_FALLBACKS else opts
  pool.getD (c % pool.length) ""

/-- main.py lines 359-380: hook selection of `cmd_quest`.  The generation
calls return already-cleaned text in the source (`generate_quest_hook`
ends with `clean_quest_hook`); the oracle strings stand for those return
values and the handler-level cleaning steps (lines 367 and 373) are
applied exactly where the handler applies them.  The regeneration loop
(`attempts < 2`) is unrolled into its two possible iterations. -/
def questLoop (recent : List String) (env : QuestEnv) (hook0 : String) : String :=
  if !(hook0 == "") && quest_recently_used recent hook0 then
    match env.g1 with
    | none => ""
    | some h1 =>
      let h1c := clean_quest_hook h1
      if !(h1c == "") && quest_recently_used recent h1c then
        match env.g2 with
        | none => ""
        | some h2 => clean_quest_hook h2
      else h1c
  else hook0

def questHook (recent : List String) (env : QuestEnv) : String :=
  let g := env.g0.getD ""
  let g := if g == "" then QUEST_FALLBACKS.getD (env.c0 % QUEST_FALLBACKS.length) "" else g
  let hook1 := questLoop recent env (clean_quest_hook g)
  if hook1 == "" then fallbackPick recent env.c1 else hook1

/-! ## Theorems for claim C2 (quest-hook deduplication) -/

def exH : String := "The glass lighthouse blinks a code that only sleeping sailors answer."

def exB : String := "A wandering clocksmith trades memories for minutes at the autumn fair."

set_option maxRecDepth 100000 in
/-- Counterexample to C2: with the window already containing `exH`, three
generation attempts all producing `exH` make `cmd_quest` install `exH`
as the active quest even though it is in the window and fallback hooks
outside the window exist. -/
theorem C2_counterexample :
    questHook [pyLowerStrip exH] ⟨some exH, some exH, some exH, 0, 0⟩ = exH
    ∧ quest_recently_used [pyLowerStrip exH] exH = true
    ∧ QUEST_FALLBACKS.filter
        (fun q => !(quest_recently_used [pyLowerStrip exH] q)) ≠ [] := by
  refine ⟨by decide, by decide, by decide⟩

theorem fallbackPick_not_used (recent : List String) (c : ℕ) (q : String)
    (hq : q ∈ QUEST_FALLBACKS) (hqf : quest_recently_used recent q = false) :
    quest_recently_used recent (fallbackPick recent c) = false := by
  unfold fallbackPick
  have hmem : q ∈ QUEST_FALLBACKS.filter (fun x => !(quest_recently_used recent x)) :=
    List.mem_filter.mpr ⟨hq, by simp [hqf]⟩
  have hne : QUEST_FALLBACKS.filter (fun x => !(quest_recently_used recent x)) ≠ [] :=
    List.ne_nil_of_mem hmem
  have hie : (QUEST_FALLBACKS.filter (fun x => !(quest_recently_used recent x))).isEmpty
      = false := List.isEmpty_eq_false.mpr hne
  simp only [hie, Bool.false_eq_true, if_false]
  have hlen : 0 < (QUEST_FALLBACKS.filter (fun x => !(quest_recently_used recent x))).length :=
    List.length_pos.mpr hne
  have hidx : c % (QUEST_FALLBACKS.filter
      (fun x => !(quest_recently_used recent x))).length
      < (QUEST_FALLBACKS.filter (fun x => !(quest_recently_used recent x))).length :=
    Nat.mod_lt _ hlen
  rw [List.getD_eq_getElem _ "" hidx]
  have hmem2 := List.getElem_mem hidx
  have hprop := (List.mem_filter.mp hmem2).2
  simpa using hprop

/-- C2 amended: when the window already contains the freshly generated
hook, regeneration is requested (up to 2 additional attempts) and an
accepted non-duplicate regeneration is installed; when regeneration
raises, a fallback hook not present in the window is chosen whenever one
exists; but when all three generation attempts return non-empty hooks
already in the window, the third hook is installed even though it is a
duplicate. -/
theorem C2_quest_dedup_amended :
    (∀ (recent : List String) (env : QuestEnv) (h0 h1 : String),
      env.g0 = some h0 → env.g1 = some h1 →
      clean_quest_hook h0 ≠ "" →
      quest_recently_used recent (clean_quest_hook h0) = true →
      clean_quest_hook h1 ≠ "" →
      quest_recently_used recent (clean_quest_hook h1) = false →
      questHook recent env = clean_quest_hook h1)
    ∧ (∀ (recent : List String) (env : QuestEnv) (h0 : String),
      env.g0 = some h0 → env.g1 = none →
      clean_quest_hook h0 ≠ "" →
      quest_recently_used recent (clean_quest_hook h0) = true →
      questHook recent env = fallbackPick recent env.c1)
    ∧ (∀ (recent : List String) (c : ℕ) (q : String), q ∈ QUEST_FALLBACKS →
      quest_recently_used recent q = false →
      quest_recently_used recent (fallbackPick recent c) = false)
    ∧ (∀ (recent : List String) (env : QuestEnv) (h0 h1 h2 : String),
      env.g0 = some h0 → env.g1 = some h1 → env.g2 = some h2 →
      clean_quest_hook h0 ≠ "" →
      quest_recently_used recent (clean_quest_hook h0) = true →
      clean_quest_hook h1 ≠ "" →
      quest_recently_used recent (clean_quest_hook h1) = true →
      clean_quest_hook h2 ≠ "" →
      questHook recent env = clean_quest_hook h2) := by
  refine ⟨?_, ?_, fallbackPick_not_used, ?_⟩
  · intro recent env h0 h1 hg0 hg1 hne0 hu0 hne1 hu1
    obtain ⟨g0, g1, g2, c0, c1⟩ := env
    simp only at hg0 hg1
    subst hg0
    subst hg1
    have hh0 : (h0 == "") = false := beq_eq_false_iff_ne.mpr
      (fun h => hne0 (by rw [h]; decide))
    have hb0 : (clean_quest_hook h0 == "") = false := beq_eq_false_iff_ne.mpr hne0
    have hb1 : (clean_quest_hook h1 == "") = false := beq_eq_false_iff_ne.mpr hne1
    simp [questHook, questLoop, hh0, hb0, hu0, hb1, hu1]
  · intro recent env h0 hg0 hg1 hne0 hu0
    obtain ⟨g0, g1, g2, c0, c1⟩ := env
    simp only at hg0 hg1
    subst hg0
    subst hg1
    have hh0 : (h0 == "") = false := beq_eq_false_iff_ne.mpr
      (fun h => hne0 (by rw [h]; decide))
    have hb0 : (clean_quest_hook h0 == "") = false := beq_eq_false_iff_ne.mpr hne0
    simp [questHook, questLoop, hh0, hb0, hu0]
  · intro recent env h0 h1 h2 hg0 hg1 hg2 hne0 hu0 hne1 hu1 hne2
    obtain ⟨g0, g1, g2, c0, c1⟩ := env
    simp only at hg0 hg1 hg2
    subst hg0
    subst hg1
    subst hg2
    have hh0 : (h0 == "") = false := beq_eq_false_iff_ne.mpr
      (fun h => hne0 (by rw [h]; decide))
    have hb0 : (clean_quest_hook h0 == "") = false := beq_eq_false_iff_ne.mpr hne0
    have hb1 : (clean_quest_hook h1 == "") = false := beq_eq_false_iff_ne.mpr hne1
    have hb2 : (clean_quest_hook h2 == "") = false := beq_eq_false_iff_ne.mpr hne2
    simp [questHook, questLoop, hh0, hb0, hu0, hb1, hu1, hb2]

set_option maxRecDepth 100000 in
/-- Witness for the amended C2: a window holding `exH`, an accepted
regeneration, a generation failure falling back outside the window, and a
three-fold duplicate installing the duplicate. -/
theorem C2_quest_dedup_amended_witness :
    questHook [pyLowerStrip exH] ⟨some exH, some exB, none, 0, 0⟩ = clean_quest_hook exB
    ∧ questHook [pyLowerStrip exH] ⟨some exH, none, none, 0, 5⟩
        = fallbackPick [pyLowerStrip exH] 5
    ∧ quest_recently_used [pyLowerStrip exH] (fallbackPick [pyLowerStrip exH] 0) = false
    ∧ questHook [pyLowerStrip exH] ⟨some exH, some exH, some exH, 1, 1⟩
        = clean_quest_hook exH := by
  refine ⟨?_, ?_, ?_, ?_⟩
  · exact C2_quest_dedup_amended.1 [pyLowerStrip exH] ⟨some exH, some exB, none, 0, 0⟩
      exH exB rfl rfl (by decide) (by decide) (by decide) (by decide)
  · exact C2_quest_dedup_amended.2.1 [pyLowerStrip exH] ⟨some exH, none, none, 0, 5⟩
      exH rfl rfl (by decide) (by decide)
  · exact C2_quest_dedup_amended.2.2.1 [pyLowerStrip exH] 0
      "A suspicious merchant offers a map to a sunken archive guarded by silent bells."
      (by decide) (by decide)
  · exact C2_quest_dedup_amended.2.2.2 [pyLowerStrip exH] ⟨some exH, some exH, some exH, 1, 1⟩
      exH exH exH rfl rfl rfl (by decide) (by decide) (by decide) (by decide) (by decide)

/-! ## Theorems for claim C7 (sanitization coverage) -/

/-- main.py lines 562-564 (and 629-631): the snippet stored to memory by
`handle_advice` for a long question is
`re.sub(r"\s+", " ", user_question)[:180]` — whitespace collapsing and
truncation only. -/
def advice_snippet (user_question : String) : String :=
  ⟨(collapseWs user_question.data).take 180⟩

/-- main.py line 540 (and 609): memories are passed through
`clean_quest_hook` and emptied entries dropped before entering prompt
context. -/
def promptMemories (raw : List String) : List String :=
  (raw.map clean_quest_hook).filter (fun m => !(m == ""))

/-- main.py lines 543-545 (and 612-614): the stored last quest is
sanitized before entering prompt context when truthy. -/
def promptLastQuest : Option String → Option String
  | none => none
  | some q => if q == "" then some q else some (clean_quest_hook q)

def boxText : String :=
  ⟨[Char.ofNat 0xF8FF, Char.ofNat 0xFC, Char.ofNat 0xE8, Char.ofNat 0xDC]⟩
    ++ " ACHIEVEMENT UNLOCKED: Dungeon Cleared Reward: one shiny button"

def exQ : String :=
  "Please summarize the remaining plan for tomorrow in a friendly tone. " ++ boxText

set_option maxRecDepth 100000 in
/-- Counterexample to C7: a long advice question containing an
achievement box is stored to memory by `handle_advice` with the box
intact — the stored snippet differs from the sanitized text and still
matches `ACHIEVEMENT_BOX_RE`, so it did not pass through
`clean_quest_hook`. -/
theorem C7_counterexample :
    exQ.length > 80
    ∧ hasBox (advice_snippet exQ).data = true
    ∧ advice_snippet exQ ≠ clean_quest_hook exQ
    ∧ hasBox (clean_quest_hook exQ).data = false := by
  refine ⟨by decide, by decide, by decide, by decide⟩

theorem fallbackPick_mem (recent : List String) (c : ℕ) :
    fallbackPick recent c ∈ QUEST_FALLBACKS := by
  unfold fallbackPick
  by_cases hie : (QUEST_FALLBACKS.filter
      (fun x => !(quest_recently_used recent x))).isEmpty = true
  · simp only [hie, if_true]
    have hlen : 0 < QUEST_FALLBACKS.length := by decide
    have hidx : c % QUEST_FALLBACKS.length < QUEST_FALLBACKS.length :=
      Nat.mod_lt _ hlen
    rw [List.getD_eq_getElem _ "" hidx]
    exact List.getElem_mem hidx
  · have hie' : (QUEST_FALLBACKS.filter
        (fun x => !(quest_recently_used recent x))).isEmpty = false := by
      simpa using hie
    simp only [hie', Bool.false_eq_true, if_false]
    have hne : QUEST_FALLBACKS.filter (fun x => !(quest_recently_used recent x)) ≠ [] :=
      List.isEmpty_eq_false.mp hie'
    have hlen : 0 < (QUEST_FALLBACKS.filter
        (fun x => !(quest_recently_used recent x))).length :=
      List.length_pos.mpr hne
    have hidx : c % (QUEST_FALLBACKS.filter
        (fun x => !(quest_recently_used recent x))).length
        < (QUEST_FALLBACKS.filter (fun x => !(quest_recently_used recent x))).length :=
      Nat.mod_lt _ hlen
    rw [List.getD_eq_getElem _ "" hidx]
    exact (List.mem_filter.mp (List.getElem_mem hidx)).1

theorem questLoop_shape (recent : List String) (env : QuestEnv) (hook0 : String)
    (h : ∃ s, hook0 = clean_quest_hook s) :
    questLoop recent env hook0 = ""
      ∨ ∃ s, questLoop recent env hook0 = clean_quest_hook s := by
  unfold questLoop
  split
  · cases env.g1 with
    | none => exact Or.inl rfl
    | some h1 =>
      simp only
      split
      · cases env.g2 with
        | none => exact Or.inl rfl
        | some h2 => exact Or.inr ⟨h2, rfl⟩
      · exact Or.inr ⟨h1, rfl⟩
  · exact Or.inr h

theorem questHook_shape (recent : List String) (env : QuestEnv) :
    (∃ s, questHook recent env = clean_quest_hook s)
      ∨ questHook recent env ∈ QUEST_FALLBACKS := by
  obtain ⟨g0, g1, g2, c0, c1⟩ := env
  simp only [questHook]
  rcases questLoop_shape recent ⟨g0, g1, g2, c0, c1⟩
      (clean_quest_hook (if ((g0.getD "") == "") = true
        then QUEST_FALLBACKS.getD (c0 % QUEST_FALLBACKS.length) "" else g0.getD ""))
      ⟨_, rfl⟩ with h | ⟨s, h⟩
  · rw [h]
    simp only [beq_self_eq_true, if_true]
    exact Or.inr (fallbackPick_mem recent c1)
  · rw [h]
    by_cases hs : (clean_quest_hook s == "") = true
    · rw [if_pos hs]
      exact Or.inr (fallbackPick_mem recent c1)
    · rw [if_neg hs]
      exact Or.inl ⟨s, rfl⟩

set_option maxRecDepth 100000 in
/-- C7 amended: memory snippets and the last quest are sanitized with
`clean_quest_hook` on their way into prompt context, and the hook
installed by `cmd_quest` is either sanitizer output or one of the
(sanitizer-clean) built-in fallbacks; but the advice-question snippet
stored into memory by `handle_advice` receives only whitespace collapsing
and truncation, not achievement-box stripping. -/
theorem C7_sanitizer_amended :
    (∀ (raw : List String) (m : String), m ∈ promptMemories raw →
      ∃ r ∈ raw, m = clean_quest_hook r ∧ m ≠ "")
    ∧ (∀ q : String, q ≠ "" → promptLastQuest (some q) = some (clean_quest_hook q))
    ∧ (∀ (recent : List String) (env : QuestEnv),
      (∃ s, questHook recent env = clean_quest_hook s)
        ∨ questHook recent env ∈ QUEST_FALLBACKS)
    ∧ (∃ q : String, q.length > 80 ∧ hasBox (advice_snippet q).data = true) := by
  refine ⟨?_, ?_, questHook_shape, ?_⟩
  · intro raw m hm
    unfold promptMemories at hm
    obtain ⟨hmap, hne⟩ := List.mem_filter.mp hm
    obtain ⟨r, hr, hrm⟩ := List.mem_map.mp hmap
    refine ⟨r, hr, hrm.symm, ?_⟩
    simpa using hne
  · intro q hq
    have hb : (q == "") = false := beq_eq_false_iff_ne.mpr hq
    simp [promptLastQuest, hb]
  · exact ⟨exQ, by decide, by decide⟩

/-- Witness for the amended C7 at concrete inputs. -/
theorem C7_sanitizer_amended_witness :
    (∃ r ∈ ["  hail   traveler  "],
      clean_quest_hook "  hail   traveler  " = clean_quest_hook r
        ∧ clean_quest_hook "  hail   traveler  " ≠ "")
    ∧ promptLastQuest (some "old quest") = some (clean_quest_hook "old quest")
    ∧ ((∃ s, questHook [] ⟨none, none, none, 0, 0⟩ = clean_quest_hook s)
        ∨ questHook [] ⟨none, none, none, 0, 0⟩ ∈ QUEST_FALLBACKS)
    ∧ (∃ q : String, q.length > 80 ∧ hasBox (advice_snippet q).data = true) := by
  refine ⟨?_, ?_, C7_sanitizer_amended.2.2.1 [] ⟨none, none, none, 0, 0⟩,
    C7_sanitizer_amended.2.2.2⟩
  · exact C7_sanitizer_amended.1 ["  hail   traveler  "]
      (clean_quest_hook "  hail   traveler  ") (by decide)
  · exact C7_sanitizer_amended.2.1 "old quest" (by decide)
